import Mathlib

/-!
Verification of the assimp format-to-scene-graph conversion core against its
specification.  The definitions below are shallow embeddings of the relevant
functions of `SMDLoader.cpp`, `ACLoader.cpp` (AC3D and LWS importers) and
`STLLoader.cpp`; machine floats are modelled by exact rationals, byte buffers
by lists of naturals, and fallible code by `Except`/`Option`.
-/

/-! ## SMD bone/weight resolver

Embedding of the per-vertex part of `SMDImporter::CreateOutputMeshes`
(SMDLoader.cpp lines 308-353).  A vertex carries a list of declared
`(bone index, weight)` pairs (`aiBoneLinks`) and a declared parent bone index
(`iParentNode`, an `unsigned int` whose value `0xffffffff` marks an unreadable
entry).  `nB` stands for `asBones.size()`.
-/

/-- The value `UINT_MAX` = `0xffffffff` used by the SMD loader to mark an
unreadable vertex parent index. -/
def UINT_MAX_VAL : Nat := 4294967295

/-- The declared pairs surviving validation: a pair with
`pairval.first >= asBones.size() || pairval.first == iParentNode` is skipped
(SMDLoader.cpp line 315); every other pair is appended to its bone's weight
table and its weight added to `fSum`. -/
def smdSurvivors (nB parent : Nat) (links : List (Nat × ℚ)) : List (Nat × ℚ) :=
  links.filter (fun p => decide (p.1 < nB) && decide (p.1 ≠ parent))

/-- Sum of the weights in a weight-entry list (the `fSum` accumulation). -/
def smdWeightSum (l : List (Nat × ℚ)) : ℚ :=
  (l.map Prod.snd).sum

/-- `aaiBones[pairval.first].back().second *= fSum`: scale the most recently
appended entry for bone `b` in the vertex's entry list, i.e. the last pair
whose key is `b`. -/
def scaleLast (b : Nat) (c : ℚ) : List (Nat × ℚ) → List (Nat × ℚ)
  | [] => []
  | e :: rest =>
    if b ∈ rest.map Prod.fst then e :: scaleLast b c rest
    else if e.1 = b then (e.1, e.2 * c) :: rest
    else e :: rest

/-- Per-vertex weight resolution of `SMDImporter::CreateOutputMeshes`
(lines 308-353): collect the surviving pairs; if their sum is `< 0.975` and
the parent index is not `UINT_MAX`, then either append the residual
`1.0 - fSum` on a valid parent bone, or - when the parent index is out of
range and the sum non-zero - scale, for every declared pair with an in-range
bone index, that bone's most recent entry by `1 / fSum`.  The result is the
list of weight entries this vertex contributes to the bone tables, in order
of insertion. -/
def smdResolveVertex (nB parent : Nat) (links : List (Nat × ℚ)) : List (Nat × ℚ) :=
  if smdWeightSum (smdSurvivors nB parent links) < 39/40 ∧ parent ≠ UINT_MAX_VAL then
    if nB ≤ parent then
      if smdWeightSum (smdSurvivors nB parent links) ≠ 0 then
        (links.filter (fun p => decide (p.1 < nB))).foldl
          (fun acc l => scaleLast l.1 (1 / smdWeightSum (smdSurvivors nB parent links)) acc)
          (smdSurvivors nB parent links)
      else smdSurvivors nB parent links
    else smdSurvivors nB parent links ++ [(parent, 1 - smdWeightSum (smdSurvivors nB parent links))]
  else smdSurvivors nB parent links

lemma smdWeightSum_append (l1 l2 : List (Nat × ℚ)) :
    smdWeightSum (l1 ++ l2) = smdWeightSum l1 + smdWeightSum l2 := by
  simp [smdWeightSum]

lemma scaleLast_keys (b : Nat) (c : ℚ) (l : List (Nat × ℚ)) :
    (scaleLast b c l).map Prod.fst = l.map Prod.fst := by
  induction l with
  | nil => rfl
  | cons e rest ih =>
    by_cases hmem : b ∈ rest.map Prod.fst
    · simp [scaleLast, hmem, ih]
    · by_cases he : e.1 = b
      · simp [scaleLast, hmem, he]
      · simp [scaleLast, hmem, he]

/-- The pointwise form of scaling the (unique) entry of bone `b`. -/
def scaleIf (b : Nat) (c : ℚ) (e : Nat × ℚ) : Nat × ℚ :=
  if e.1 = b then (e.1, e.2 * c) else e

lemma scaleIf_fst (b : Nat) (c : ℚ) (e : Nat × ℚ) : (scaleIf b c e).1 = e.1 := by
  unfold scaleIf
  by_cases he : e.1 = b <;> simp [he]

lemma map_scaleIf_of_not_mem {b : Nat} {c : ℚ} {l : List (Nat × ℚ)}
    (h : b ∉ l.map Prod.fst) : l.map (scaleIf b c) = l := by
  induction l with
  | nil => rfl
  | cons e rest ih =>
    simp only [List.map_cons, List.mem_cons] at h ⊢
    push_neg at h
    rw [ih h.2]
    unfold scaleIf
    simp [h.1.symm]

lemma scaleLast_eq_map_scaleIf {b : Nat} {c : ℚ} :
    ∀ {l : List (Nat × ℚ)}, (l.map Prod.fst).count b ≤ 1 →
      scaleLast b c l = l.map (scaleIf b c) := by
  intro l
  induction l with
  | nil => intro _; rfl
  | cons e rest ih =>
    intro hcount
    by_cases hmem : b ∈ rest.map Prod.fst
    · have hone : 1 ≤ (rest.map Prod.fst).count b := List.one_le_count_iff.2 hmem
      have hne : e.1 ≠ b := by
        intro heq
        rw [List.map_cons, heq, List.count_cons_self] at hcount
        omega
      have hrest : (rest.map Prod.fst).count b ≤ 1 := by
        simp only [List.map_cons, List.count_cons] at hcount
        omega
      simp only [scaleLast, if_pos hmem, List.map_cons, ih hrest]
      unfold scaleIf
      simp [hne]
    · by_cases he : e.1 = b
      · simp only [scaleLast, if_neg hmem, if_pos he, List.map_cons]
        rw [map_scaleIf_of_not_mem hmem]
        unfold scaleIf
        simp [he]
      · simp only [scaleLast, if_neg hmem, if_neg he, List.map_cons]
        rw [map_scaleIf_of_not_mem hmem]
        unfold scaleIf
        simp [he]

lemma foldl_scaleLast_eq (c : ℚ) :
    ∀ (ls acc : List (Nat × ℚ)), (acc.map Prod.fst).Nodup → (ls.map Prod.fst).Nodup →
      ls.foldl (fun a l => scaleLast l.1 c a) acc
        = acc.map (fun e => if e.1 ∈ ls.map Prod.fst then (e.1, e.2 * c) else e) := by
  intro ls
  induction ls with
  | nil =>
    intro acc _ _
    simp
  | cons l ls ih =>
    intro acc hacc hls
    simp only [List.map_cons, List.nodup_cons] at hls
    have hcount : (acc.map Prod.fst).count l.1 ≤ 1 :=
      List.nodup_iff_count_le_one.1 hacc l.1
    have hstep : scaleLast l.1 c acc = acc.map (scaleIf l.1 c) :=
      scaleLast_eq_map_scaleIf hcount
    have hkeys : ((acc.map (scaleIf l.1 c)).map Prod.fst) = acc.map Prod.fst := by
      rw [List.map_map]
      exact List.map_congr_left fun e _ => scaleIf_fst l.1 c e
    have hacc2 : ((acc.map (scaleIf l.1 c)).map Prod.fst).Nodup := by
      rw [hkeys]; exact hacc
    simp only [List.foldl_cons, hstep, ih _ hacc2 hls.2, List.map_map]
    refine List.map_congr_left fun e _ => ?_
    by_cases he : e.1 = l.1
    · have h1 : (scaleIf l.1 c e) = (e.1, e.2 * c) := by
        unfold scaleIf; simp [he]
      simp only [Function.comp_apply, h1, List.map_cons, List.mem_cons]
      rw [if_neg (by simpa [he] using hls.1), if_pos (Or.inl he)]
    · have h1 : (scaleIf l.1 c e) = e := by
        unfold scaleIf; simp [he]
      simp only [Function.comp_apply, h1, List.map_cons, List.mem_cons]
      by_cases hm : e.1 ∈ ls.map Prod.fst
      · rw [if_pos hm, if_pos (Or.inr hm)]
      · rw [if_neg hm, if_neg (by simp [he, hm])]

lemma smdWeightSum_map_scale (c : ℚ) (l : List (Nat × ℚ)) :
    smdWeightSum (l.map (fun e => (e.1, e.2 * c))) = c * smdWeightSum l := by
  induction l with
  | nil => simp [smdWeightSum]
  | cons e rest ih =>
    simp only [List.map_cons, smdWeightSum, List.sum_cons] at ih ⊢
    rw [ih]
    ring

lemma smdSurvivors_of_le_parent {nB parent : Nat} (links : List (Nat × ℚ))
    (h : nB ≤ parent) :
    links.filter (fun p => decide (p.1 < nB)) = smdSurvivors nB parent links := by
  unfold smdSurvivors
  refine List.filter_congr fun p _ => ?_
  by_cases hp : p.1 < nB
  · have : p.1 ≠ parent := by omega
    simp [hp, this]
  · simp [hp]

lemma smdSurvivors_count_parent (nB parent : Nat) (links : List (Nat × ℚ)) :
    (smdSurvivors nB parent links).countP (fun p => p.1 == parent) = 0 := by
  rw [List.countP_eq_zero]
  intro p hp
  unfold smdSurvivors at hp
  have := List.of_mem_filter hp
  simp only [Bool.and_eq_true, decide_eq_true_eq] at this
  simp [this.2]

lemma countP_key_eq_count_map (parent : Nat) (l : List (Nat × ℚ)) :
    l.countP (fun p => p.1 == parent) = (l.map Prod.fst).count parent := by
  induction l with
  | nil => rfl
  | cons e rest ih =>
    simp only [List.countP_cons, List.map_cons, List.count_cons, ih]

lemma foldl_scaleLast_keys (c : ℚ) :
    ∀ (ls acc : List (Nat × ℚ)),
      ((ls.foldl (fun a l => scaleLast l.1 c a) acc).map Prod.fst) = acc.map Prod.fst := by
  intro ls
  induction ls with
  | nil => intro acc; rfl
  | cons l ls ih =>
    intro acc
    simp only [List.foldl_cons, ih, scaleLast_keys]

/-- C10: in `SMDImporter::CreateOutputMeshes`, a declared pair whose bone index
equals the vertex's own parent index is discarded like an out-of-range index
(never entering the tables or `fSum`), so the parent bone receives at most one
entry for this vertex - the residual one. -/
theorem smd_parent_entry_at_most_once (nB parent : Nat) (links : List (Nat × ℚ)) :
    (smdSurvivors nB parent links).countP (fun p => p.1 == parent) = 0 ∧
    (smdResolveVertex nB parent links).countP (fun p => p.1 == parent) ≤ 1 := by
  refine ⟨smdSurvivors_count_parent nB parent links, ?_⟩
  unfold smdResolveVertex
  by_cases h1 : smdWeightSum (smdSurvivors nB parent links) < 39/40 ∧ parent ≠ UINT_MAX_VAL
  · rw [if_pos h1]
    by_cases h2 : nB ≤ parent
    · rw [if_pos h2]
      by_cases h3 : smdWeightSum (smdSurvivors nB parent links) ≠ 0
      · rw [if_pos h3, countP_key_eq_count_map, foldl_scaleLast_keys,
          ← countP_key_eq_count_map, smdSurvivors_count_parent]
        omega
      · rw [if_neg h3, smdSurvivors_count_parent]
        omega
    · rw [if_neg h2, List.countP_append, smdSurvivors_count_parent]
      simp
  · rw [if_neg h1, smdSurvivors_count_parent]
    omega

lemma smdResolveVertex_of_not_low {nB parent : Nat} {links : List (Nat × ℚ)}
    (h : ¬(smdWeightSum (smdSurvivors nB parent links) < 39/40 ∧ parent ≠ UINT_MAX_VAL)) :
    smdResolveVertex nB parent links = smdSurvivors nB parent links := by
  unfold smdResolveVertex
  rw [if_neg h]

lemma smdResolveVertex_residual {nB parent : Nat} {links : List (Nat × ℚ)}
    (hnB : nB ≤ UINT_MAX_VAL)
    (h1 : smdWeightSum (smdSurvivors nB parent links) < 39/40)
    (h2 : parent < nB) :
    smdResolveVertex nB parent links
      = smdSurvivors nB parent links
          ++ [(parent, 1 - smdWeightSum (smdSurvivors nB parent links))] := by
  have hne : parent ≠ UINT_MAX_VAL := by
    unfold UINT_MAX_VAL at hnB ⊢
    omega
  unfold smdResolveVertex
  rw [if_pos ⟨h1, hne⟩, if_neg (by omega)]

lemma smdResolveVertex_renorm {nB parent : Nat} {links : List (Nat × ℚ)}
    (h1 : smdWeightSum (smdSurvivors nB parent links) < 39/40)
    (h2 : parent ≠ UINT_MAX_VAL) (h3 : nB ≤ parent)
    (h4 : smdWeightSum (smdSurvivors nB parent links) ≠ 0) :
    smdResolveVertex nB parent links
      = (links.filter (fun p => decide (p.1 < nB))).foldl
          (fun acc l => scaleLast l.1 (1 / smdWeightSum (smdSurvivors nB parent links)) acc)
          (smdSurvivors nB parent links) := by
  unfold smdResolveVertex
  rw [if_pos ⟨h1, h2⟩, if_pos h3, if_pos h4]

/-- C1 (amended): if the surviving declared weight sum of a vertex is below
0.975 and its parent bone index is valid, the final weights sum to exactly 1
(the residual is appended); if the sum is at least 0.975, or the parent index
is `UINT_MAX`, the final sum simply equals the surviving declared sum (which
need not be within 1e-3 of 1); and a vertex without any surviving pair but
with a valid parent receives the single residual weight 1.0 on its parent
rather than no weight at all. -/
theorem smd_weight_resolution_sums (nB parent : Nat) (links : List (Nat × ℚ))
    (hnB : nB ≤ UINT_MAX_VAL) :
    (smdWeightSum (smdSurvivors nB parent links) < 39/40 → parent < nB →
      smdWeightSum (smdResolveVertex nB parent links) = 1) ∧
    (39/40 ≤ smdWeightSum (smdSurvivors nB parent links) ∨ parent = UINT_MAX_VAL →
      smdWeightSum (smdResolveVertex nB parent links)
        = smdWeightSum (smdSurvivors nB parent links)) ∧
    (smdSurvivors nB parent links = [] → parent < nB →
      smdResolveVertex nB parent links = [(parent, 1)]) := by
  refine ⟨?_, ?_, ?_⟩
  · intro h1 h2
    rw [smdResolveVertex_residual hnB h1 h2, smdWeightSum_append]
    simp [smdWeightSum]
  · intro h
    have hno : ¬(smdWeightSum (smdSurvivors nB parent links) < 39/40
        ∧ parent ≠ UINT_MAX_VAL) := by
      rcases h with h | h
      · exact fun hc => absurd hc.1 (not_lt.2 h)
      · exact fun hc => hc.2 h
    rw [smdResolveVertex_of_not_low hno]
  · intro hempty h2
    have h1 : smdWeightSum (smdSurvivors nB parent links) < 39/40 := by
      rw [hempty]
      norm_num [smdWeightSum]
    rw [smdResolveVertex_residual hnB h1 h2, hempty]
    norm_num [smdWeightSum]

/-- C1 (counterexample): a vertex with the single surviving declared pair
`(1, 0.98)` and valid parent bone 0 keeps a final weight sum of 0.98, which is
not within 1e-3 of 1.0 even though the vertex has a surviving declared
weight. -/
theorem smd_weight_sum_tolerance_counterexample :
    smdResolveVertex 2 0 [(1, 98/100)] = [(1, 98/100)] ∧
    ¬ |smdWeightSum (smdResolveVertex 2 0 [(1, 98/100)]) - 1| ≤ 1/1000 ∧
    smdSurvivors 2 0 [(1, 98/100)] ≠ [] := by
  refine ⟨?_, ?_, ?_⟩ <;>
    norm_num [smdResolveVertex, smdSurvivors, smdWeightSum, UINT_MAX_VAL, abs_le]

/-- C1 (witness): concrete instances of the three amended cases. -/
theorem smd_weight_resolution_sums_witness :
    smdWeightSum (smdResolveVertex 2 0 [(1, 1/2)]) = 1 ∧
    smdWeightSum (smdResolveVertex 2 0 [(1, 99/100)])
      = smdWeightSum (smdSurvivors 2 0 [(1, 99/100)]) ∧
    smdResolveVertex 2 1 [] = [(1, 1)] :=
  ⟨(smd_weight_resolution_sums 2 0 [(1, 1/2)] (by norm_num [UINT_MAX_VAL])).1
      (by norm_num [smdSurvivors, smdWeightSum]) (by norm_num),
   (smd_weight_resolution_sums 2 0 [(1, 99/100)] (by norm_num [UINT_MAX_VAL])).2.1
      (Or.inl (by norm_num [smdSurvivors, smdWeightSum])),
   (smd_weight_resolution_sums 2 1 [] (by norm_num [UINT_MAX_VAL])).2.2
      (by simp [smdSurvivors]) (by norm_num)⟩

/-- C2 (amended): the resolver sums the surviving declared weights; when the
sum is below 0.975 and the parent index is not `UINT_MAX`, a valid parent
receives the residual `1.0 - sum` as an extra entry, while an out-of-range
parent with non-zero sum triggers renormalization that scales each surviving
bone's most recent entry by `1/sum` - yielding a total of exactly 1 when the
surviving pairs reference pairwise distinct bones; when the parent index is
`UINT_MAX`, neither the residual assignment nor the renormalization happens
and the surviving weights are kept as declared. -/
theorem smd_weight_resolution_branches (nB parent : Nat) (links : List (Nat × ℚ))
    (hnB : nB ≤ UINT_MAX_VAL) :
    (smdWeightSum (smdSurvivors nB parent links) < 39/40 → parent < nB →
      smdResolveVertex nB parent links
        = smdSurvivors nB parent links
            ++ [(parent, 1 - smdWeightSum (smdSurvivors nB parent links))]) ∧
    (smdWeightSum (smdSurvivors nB parent links) < 39/40 → parent ≠ UINT_MAX_VAL →
      nB ≤ parent → smdWeightSum (smdSurvivors nB parent links) ≠ 0 →
      ((smdSurvivors nB parent links).map Prod.fst).Nodup →
      smdWeightSum (smdResolveVertex nB parent links) = 1) ∧
    (parent = UINT_MAX_VAL →
      smdResolveVertex nB parent links = smdSurvivors nB parent links) := by
  refine ⟨fun h1 h2 => smdResolveVertex_residual hnB h1 h2, ?_, ?_⟩
  · intro h1 h2 h3 h4 hnodup
    rw [smdResolveVertex_renorm h1 h2 h3 h4, smdSurvivors_of_le_parent links h3,
      foldl_scaleLast_eq _ _ _ hnodup hnodup]
    have hmap : (smdSurvivors nB parent links).map
          (fun e => if e.1 ∈ (smdSurvivors nB parent links).map Prod.fst
            then (e.1, e.2 * (1 / smdWeightSum (smdSurvivors nB parent links))) else e)
        = (smdSurvivors nB parent links).map
          (fun e => (e.1, e.2 * (1 / smdWeightSum (smdSurvivors nB parent links)))) :=
      List.map_congr_left fun e he => by
        rw [if_pos (List.mem_map_of_mem Prod.fst he)]
    rw [hmap, smdWeightSum_map_scale]
    field_simp
  · intro hpar
    exact smdResolveVertex_of_not_low fun hc => hc.2 hpar

/-- C2 (counterexample): a vertex whose declared parent index is `UINT_MAX`
(an invalid parent bone index) and whose surviving weights sum to 0.5 is left
completely untouched - the weights are not renormalized by `1/sum` as the
claim demands for invalid parent indices. -/
theorem smd_umax_parent_counterexample :
    smdResolveVertex 1 UINT_MAX_VAL [(0, 1/2)] = [(0, 1/2)] ∧
    smdWeightSum (smdResolveVertex 1 UINT_MAX_VAL [(0, 1/2)]) ≠ 1 := by
  refine ⟨?_, ?_⟩ <;>
    norm_num [smdResolveVertex, smdSurvivors, smdWeightSum, UINT_MAX_VAL]

/-- C2 (witness): concrete instances of the three amended branches. -/
theorem smd_weight_resolution_branches_witness :
    smdResolveVertex 2 0 [(1, 1/2)]
      = smdSurvivors 2 0 [(1, 1/2)]
          ++ [(0, 1 - smdWeightSum (smdSurvivors 2 0 [(1, 1/2)]))] ∧
    smdWeightSum (smdResolveVertex 1 5 [(0, 1/2)]) = 1 ∧
    smdResolveVertex 1 UINT_MAX_VAL [(0, 1/3)]
      = smdSurvivors 1 UINT_MAX_VAL [(0, 1/3)] :=
  ⟨(smd_weight_resolution_branches 2 0 [(1, 1/2)] (by norm_num [UINT_MAX_VAL])).1
      (by norm_num [smdSurvivors, smdWeightSum]) (by norm_num),
   (smd_weight_resolution_branches 1 5 [(0, 1/2)] (by norm_num [UINT_MAX_VAL])).2.1
      (by norm_num [smdSurvivors, smdWeightSum]) (by norm_num [UINT_MAX_VAL])
      (by norm_num) (by norm_num [smdSurvivors, smdWeightSum])
      (by simp [smdSurvivors]),
   (smd_weight_resolution_branches 1 UINT_MAX_VAL [(0, 1/3)]
      (by norm_num [UINT_MAX_VAL])).2.2 rfl⟩

/-! ## LWS flat hierarchy resolution

Embedding of the parent-resolution pass of `LWSImporter::InternReadFile`
(ACLoader.cpp source pack, LWSLoader part, lines 1739-1765).  Nodes are the
flat `LWS::NodeDesc` list; each carries the combined id that `ParentItem`
records reference (modelled as `id : Nat`) and an optional declared parent id
(`none` when no `ParentItem`/`ParentObject` line claimed one).  The double
loop attaches every node `dit` whose declared parent equals `ndIt`'s id as a
child of `ndIt`, unless `dit` was already resolved, in which case the
attachment is dropped after logging a cross-reference error. -/

/-- A flat LWS node record: its combined id and its declared parent id. -/
structure RNode where
  id : Nat
  parent : Option Nat
deriving DecidableEq

/-- State of the resolution pass: the attachments `(parent position, child
position)` made so far in order, the per-position `parent_resolved` slots, and
the number of dropped (cross-reference) attachments. -/
structure RState where
  attachments : List (Nat × Nat)
  resolved : List (Option Nat)
  dropped : Nat
deriving DecidableEq

/-- One iteration of the inner loop of the resolution pass: node at position
`j` (`dit`) is checked against the candidate parent at position `i`
(`ndIt`). -/
def lwsStep (ns : List RNode) (i : Nat) (s : RState) (j : Nat) : RState :=
  if j ≠ i ∧ (ns.getD j ⟨0, none⟩).parent = some (ns.getD i ⟨0, none⟩).id then
    if (s.resolved.getD j none).isSome then
      { s with dropped := s.dropped + 1 }
    else
      { s with attachments := s.attachments ++ [(i, j)],
               resolved := s.resolved.set j (some i) }
  else s

/-- The full double loop `for ndIt in nodes: for dit in nodes: ...` resolving
parenting (ACLoader.cpp lines 1739-1754). -/
def lwsResolve (ns : List RNode) : RState :=
  (List.range ns.length).foldl
    (fun s i => (List.range ns.length).foldl (lwsStep ns i) s)
    ⟨[], List.replicate ns.length none, 0⟩

/-- The `no_parent` check after the pass (lines 1756-1765): with zero
unresolved nodes the import throws `DeadlyImportError`. -/
def lwsHierarchy (ns : List RNode) : Except String RState :=
  if (lwsResolve ns).resolved.countP (fun o => o.isNone) = 0 then
    Except.error "LWS: Unable to find scene root node"
  else
    Except.ok (lwsResolve ns)

/-- Root positions: nodes never claimed as a child. -/
def lwsRootPositions (ns : List RNode) : List Nat :=
  (List.range ns.length).filter
    (fun j => ((lwsResolve ns).resolved.getD j none).isNone)

/-- One breadth step of reachability over the attachment list. -/
def lwsReachStep (att : List (Nat × Nat)) (seen : List Nat) : List Nat :=
  seen ++ (att.filter (fun p => decide (p.1 ∈ seen) && decide (p.2 ∉ seen))).map Prod.snd

/-- Iterated reachability with explicit fuel. -/
def lwsReachN (att : List (Nat × Nat)) : Nat → List Nat → List Nat
  | 0, seen => seen
  | n + 1, seen => lwsReachN att n (lwsReachStep att seen)

/-- The set of node positions that make it into the output graph: those
reachable from the unclaimed roots through the attachments. -/
def lwsReachable (ns : List RNode) : List Nat :=
  lwsReachN ((lwsResolve ns).attachments) ns.length (lwsRootPositions ns)

/-- Ancestor chain of a position through the `parent_resolved` links. -/
def lwsAncChain (res : List (Option Nat)) : Nat → Nat → List Nat
  | 0, _ => []
  | fuel + 1, j =>
    match res.getD j none with
    | none => []
    | some p => p :: lwsAncChain res fuel p

/-- A position is cyclic when it occurs among its own ancestors. -/
def lwsIsCyclic (ns : List RNode) (j : Nat) : Bool :=
  j ∈ lwsAncChain ((lwsResolve ns).resolved) ns.length j

lemma foldl_invariant {α β : Type} (f : β → α → β) (P : β → Prop)
    (hf : ∀ b a, P b → P (f b a)) :
    ∀ (l : List α) (b : β), P b → P (l.foldl f b) := by
  intro l
  induction l with
  | nil => intro b hb; exact hb
  | cons a l ih => intro b hb; exact ih _ (hf b a hb)

lemma getD_replicate_none (n j : Nat) :
    (List.replicate n (none : Option Nat)).getD j none = none := by
  induction n generalizing j with
  | zero => simp [List.getD]
  | succ n ih =>
    cases j with
    | zero => simp [List.replicate, List.getD]
    | succ j =>
      simp only [List.replicate, List.getD_cons_succ]
      exact ih j

lemma getD_set_self {α : Type} (l : List α) (i : Nat) (v d : α) (h : i < l.length) :
    (l.set i v).getD i d = v := by
  induction l generalizing i with
  | nil => simp at h
  | cons a l ih =>
    cases i with
    | zero => simp [List.set]
    | succ i =>
      simp only [List.set, List.getD_cons_succ]
      exact ih i (by simpa using h)

lemma getD_set_ne {α : Type} (l : List α) (i j : Nat) (v d : α) (h : i ≠ j) :
    (l.set i v).getD j d = l.getD j d := by
  induction l generalizing i j with
  | nil => simp [List.set]
  | cons a l ih =>
    cases i with
    | zero =>
      cases j with
      | zero => exact absurd rfl h
      | succ j => simp [List.set]
    | succ i =>
      cases j with
      | zero => simp [List.set]
      | succ j =>
        simp only [List.set, List.getD_cons_succ]
        exact ih i j (by omega)

/-- The invariant tying each node's attachment count to its `parent_resolved`
slot. -/
def lwsInv (ns : List RNode) (s : RState) : Prop :=
  s.resolved.length = ns.length ∧
  ∀ j, ((s.attachments.map Prod.snd).count j)
    = if (s.resolved.getD j none).isSome then 1 else 0

lemma lwsStep_preserves (ns : List RNode) (i : Nat) :
    ∀ (s : RState) (j : Nat), lwsInv ns s → lwsInv ns (lwsStep ns i s j) := by
  intro s j ⟨hlen, hinv⟩
  unfold lwsStep
  by_cases hcond : j ≠ i ∧ (ns.getD j ⟨0, none⟩).parent = some (ns.getD i ⟨0, none⟩).id
  · rw [if_pos hcond]
    by_cases hres : (s.resolved.getD j none).isSome
    · rw [if_pos hres]
      exact ⟨hlen, hinv⟩
    · rw [if_neg hres]
      have hjlt : j < ns.length := by
        by_contra hge
        have : ns.getD j ⟨0, none⟩ = ⟨0, none⟩ :=
          List.getD_eq_default _ _ (by omega)
        rw [this] at hcond
        exact Option.noConfusion hcond.2
      refine ⟨by simpa using hlen, fun j2 => ?_⟩
      by_cases hj2 : j2 = j
      · subst hj2
        simp only [List.map_append, List.count_append]
        rw [getD_set_self _ _ _ _ (by omega)]
        have h0 : ((s.attachments.map Prod.snd).count j2) = 0 := by
          rw [hinv j2, if_neg hres]
        simp [h0]
      · simp only [List.map_append, List.count_append]
        rw [getD_set_ne _ _ _ _ _ (fun he => hj2 he.symm)]
        have : (([(i, j)].map Prod.snd).count j2) = 0 := by
          simp [hj2]
        rw [this, hinv j2]
        omega
  · rw [if_neg hcond]
    exact ⟨hlen, hinv⟩

lemma lwsResolve_inv (ns : List RNode) : lwsInv ns (lwsResolve ns) := by
  unfold lwsResolve
  refine foldl_invariant _ (lwsInv ns) (fun s i hs => ?_) _ _ ?_
  · exact foldl_invariant _ (lwsInv ns) (fun s2 j hs2 => lwsStep_preserves ns i s2 j hs2) _ s hs
  · refine ⟨by simp, fun j => ?_⟩
    simp [getD_replicate_none]

/-- C4 (amended): in the LWS parent-resolution pass a node is attached as a
child at most once; a second declared parent claiming an already-resolved node
only increments the dropped (cross-reference) counter.  The pass is a bounded
double loop, so it always terminates; a parent cycle, however, drops nothing:
its members and every node whose ancestry leads into it are all claimed as
children and simply never reachable from an unclaimed root. -/
theorem lws_attached_at_most_once (ns : List RNode) (j : Nat) :
    (((lwsResolve ns).attachments.map Prod.snd).count j) ≤ 1 := by
  have h := (lwsResolve_inv ns).2 j
  rw [h]
  split <;> omega

/-- The five-node example: `D` (id 1) has no declared parent; `A,B,C`
(ids 2,3,4) form a declared parent cycle; `E` (id 5) declares the cycle
member `A` as parent. -/
def lwsCycleEx : List RNode :=
  [⟨1, none⟩, ⟨2, some 4⟩, ⟨3, some 2⟩, ⟨4, some 3⟩, ⟨5, some 2⟩]

/-- C4 (counterexample): resolving `lwsCycleEx` drops no attachment (no
cross-reference error is logged), yet position 4 (`E`), which is not its own
ancestor, is absent from the root-reachable output graph - so the resulting
tree does not contain all non-cyclic nodes. -/
theorem lws_cycle_counterexample :
    (lwsResolve lwsCycleEx).dropped = 0 ∧
    lwsIsCyclic lwsCycleEx 4 = false ∧
    lwsRootPositions lwsCycleEx = [0] ∧
    4 ∉ lwsReachable lwsCycleEx := by
  refine ⟨?_, ?_, ?_, ?_⟩ <;> decide

/-- C5: if every node of the flat list ends up claimed as a child (zero
unresolved nodes remain after the pass), the LWS import fails with the fatal
"Unable to find scene root node" error instead of producing a scene. -/
theorem lws_no_root_fatal (ns : List RNode)
    (h : ∀ j, j < ns.length → ((lwsResolve ns).resolved.getD j none).isSome) :
    lwsHierarchy ns = Except.error "LWS: Unable to find scene root node" := by
  unfold lwsHierarchy
  rw [if_pos ?_]
  rw [List.countP_eq_zero]
  intro o ho
  rcases List.mem_iff_getElem.1 ho with ⟨k, hk, hko⟩
  have hlen : (lwsResolve ns).resolved.length = ns.length := (lwsResolve_inv ns).1
  have := h k (by omega)
  rw [List.getD_eq_getElem?_getD, List.getElem?_eq_getElem hk, hko] at this
  simp only [Option.getD_some] at this
  simp [Option.isNone_iff_eq_none, Option.isSome_iff_ne_none.1 this]

/-- Three mutually-cyclic nodes: every node is claimed as a child. -/
def lwsAllCyc : List RNode := [⟨1, some 3⟩, ⟨2, some 1⟩, ⟨3, some 2⟩]

/-- C5 (witness): the all-cycle list leaves no unresolved node and the
hierarchy pass reports the fatal no-root error. -/
theorem lws_no_root_fatal_witness :
    lwsHierarchy lwsAllCyc = Except.error "LWS: Unable to find scene root node" :=
  lws_no_root_fatal lwsAllCyc (by decide)

/-! ## STL loader

Embedding of `IsBinarySTL`, `IsAsciiSTL` and `STLImporter::LoadBinaryFile`
(STLLoader.cpp).  The byte buffer is a list of byte values; 32-bit words are
read little-endian; the IEEE float payloads are kept as raw 32-bit words,
which is enough for the structural properties at stake. -/

/-- Little-endian 32-bit read at `off` (`memcpy(&faceCount, buffer+80, 4)`).
Out-of-range bytes read as 0. -/
def u32At (buf : List Nat) (off : Nat) : Nat :=
  buf.getD off 0
    + 256 * (buf.getD (off + 1) 0
    + 256 * (buf.getD (off + 2) 0
    + 256 * buf.getD (off + 3) 0))

/-- `IsBinarySTL` (STLLoader.cpp lines 76-87): at least 84 bytes, and the
32-bit face count at offset 80 must satisfy
`faceCount * 50 + 84 == fileSize`, the multiplication and addition being
`uint32_t` arithmetic. -/
def isBinarySTL (buf : List Nat) : Bool :=
  if buf.length < 84 then false
  else (u32At buf 80 * 50 + 84) % 2 ^ 32 == buf.length

/-- `IsLineEnd` over raw bytes: `\r`, `\n`, `\0` or `\f`. -/
def isLineEndByte (b : Nat) : Bool :=
  b == 13 || b == 10 || b == 0 || b == 12

/-- `SkipSpaces`: advance over spaces and horizontal tabs. -/
def skipSpacesList : List Nat → List Nat
  | [] => []
  | b :: rest => if b == 32 || b == 9 then skipSpacesList rest else b :: rest

/-- `IsAsciiSTL` (STLLoader.cpp lines 95-123): never ASCII when the binary
check matched; otherwise require a `"solid"` token after leading spaces, and
for buffers of at least 500 bytes additionally scan the first 500 bytes after
the spaces for values beyond the 7-bit range (the bytes are read here as
unsigned). -/
def isAsciiSTL (buf : List Nat) : Bool :=
  if isBinarySTL buf then false
  else
    match skipSpacesList buf with
    | [] => false
    | b :: _ =>
      if isLineEndByte b then false
      else if (skipSpacesList buf).length ≤ 5 then false
      else
        let isSolid := (skipSpacesList buf).take 5 == [115, 111, 108, 105, 100]
        if isSolid && decide (500 ≤ buf.length) then
          ((skipSpacesList buf).take 500).all (fun c => decide (c ≤ 127))
        else isSolid

/-- The mesh produced by the binary STL path; float payloads stay raw 32-bit
words. -/
structure StlBinMesh where
  numFaces : Nat
  normals : List (Nat × Nat × Nat)
  verts : List (Nat × Nat × Nat)
  faces : List (List Nat)
deriving DecidableEq

/-- The three little-endian words of a 12-byte vector starting at `off`. -/
def stlWord3At (buf : List Nat) (off : Nat) : Nat × Nat × Nat :=
  (u32At buf off, u32At buf (off + 4), u32At buf (off + 8))

/-- `STLImporter::LoadBinaryFile` (STLLoader.cpp lines 400-470) combined with
`addFacesToMesh` (lines 151-161): validate the sizes, then for each of the
`n` 50-byte records duplicate the record's single normal to its three
vertices, copy the three vertex positions, and emit face `i` with the indices
`3i, 3i+1, 3i+2`. -/
def stlLoadBinary (buf : List Nat) : Except String StlBinMesh :=
  if buf.length < 84 then
    Except.error "STL: file is too small for the header"
  else if buf.length < 84 + u32At buf 80 * 50 then
    Except.error "STL: file is too small to hold all facets"
  else if u32At buf 80 = 0 then
    Except.error "STL: file is empty. There are no facets defined"
  else
    Except.ok
      { numFaces := u32At buf 80
        normals := (List.range (u32At buf 80)).flatMap
          (fun i => [stlWord3At buf (84 + 50 * i),
                     stlWord3At buf (84 + 50 * i),
                     stlWord3At buf (84 + 50 * i)])
        verts := (List.range (u32At buf 80)).flatMap
          (fun i => [stlWord3At buf (84 + 50 * i + 12),
                     stlWord3At buf (84 + 50 * i + 24),
                     stlWord3At buf (84 + 50 * i + 36)])
        faces := (List.range (u32At buf 80)).map
          (fun i => [3 * i, 3 * i + 1, 3 * i + 2]) }

/-- The mesh indices stored on the single node of the binary STL scene:
`node->mMeshes[i] = i` for `i < mNumMeshes`. -/
def stlBinNodeMeshes (numMeshes : Nat) : List Nat :=
  List.range numMeshes

/-- `AC3DImporter::ConvertObjectSection` vertex-reference validation
(ACLoader.cpp lines 483-491): an entry referencing a vertex
`>= object.vertices.size()` is replaced by index 0 and conversion
continues. -/
def acValidateEntries (nVerts : Nat) (entries : List Nat) : List Nat :=
  entries.map (fun e => if nVerts ≤ e then 0 else e)

/-- `AC3DImporter::ConvertObjectSection` material-index validation
(ACLoader.cpp lines 472-476): an out-of-range material index falls back to
index 0. -/
def acClampMatIndex (nMat idx : Nat) : Nat :=
  if nMat ≤ idx then 0 else idx

lemma stlLoadBinary_ok {buf : List Nat} {m : StlBinMesh}
    (h : stlLoadBinary buf = Except.ok m) :
    m.numFaces = u32At buf 80 ∧
    m.verts = (List.range (u32At buf 80)).flatMap
      (fun i => [stlWord3At buf (84 + 50 * i + 12),
                 stlWord3At buf (84 + 50 * i + 24),
                 stlWord3At buf (84 + 50 * i + 36)]) ∧
    m.faces = (List.range (u32At buf 80)).map (fun i => [3 * i, 3 * i + 1, 3 * i + 2]) := by
  unfold stlLoadBinary at h
  split_ifs at h
  rw [Except.ok.injEq] at h
  subst h
  exact ⟨rfl, rfl, rfl⟩

lemma length_flatMap_three (g : Nat → List (Nat × Nat × Nat)) (n : Nat)
    (hg : ∀ i, (g i).length = 3) :
    ((List.range n).flatMap g).length = 3 * n := by
  induction n with
  | zero => simp
  | succ n ih =>
    rw [List.range_succ, List.flatMap_append, List.length_append, ih]
    simp [hg]
    omega

/-- C3: index invariants of the conversion output.  The faces emitted by the
binary STL path only reference vertex indices below the vertex count; the
node's mesh indices stay below the scene's mesh count; and the AC3D converter
substitutes index 0 for out-of-range vertex references and material indices
instead of aborting, so the substituted index is always in range. -/
theorem scene_index_invariants :
    (∀ (buf : List Nat) (m : StlBinMesh), stlLoadBinary buf = Except.ok m →
      m.verts.length = 3 * m.numFaces ∧
      ∀ f ∈ m.faces, ∀ ix ∈ f, ix < m.verts.length) ∧
    (∀ n ix, ix ∈ stlBinNodeMeshes n → ix < n) ∧
    (∀ nV entries, 0 < nV → ∀ e ∈ acValidateEntries nV entries, e < nV) ∧
    (∀ nM idx, 0 < nM → acClampMatIndex nM idx < nM) := by
  refine ⟨?_, ?_, ?_, ?_⟩
  · intro buf m h
    obtain ⟨hn, hv, hf⟩ := stlLoadBinary_ok h
    have hvl : m.verts.length = 3 * m.numFaces := by
      rw [hv, hn]
      exact length_flatMap_three _ _ (fun i => rfl)
    refine ⟨hvl, fun f hfm ix hix => ?_⟩
    rw [hf] at hfm
    rcases List.mem_map.1 hfm with ⟨i, hi, hfi⟩
    have hilt : i < u32At buf 80 := List.mem_range.1 hi
    subst hfi
    rw [hvl, hn]
    simp only [List.mem_cons, List.not_mem_nil, or_false] at hix
    rcases hix with h1 | h1 | h1 <;> omega
  · intro n ix hix
    exact List.mem_range.1 hix
  · intro nV entries h0 e he
    unfold acValidateEntries at he
    rcases List.mem_map.1 he with ⟨x, _, hx⟩
    subst hx
    split
    · omega
    · omega
  · intro nM idx h0
    unfold acClampMatIndex
    split
    · omega
    · omega

/-- A 184-byte buffer: 80 header bytes, the little-endian face count 2, and
two 50-byte zero face records. -/
def stlEx : List Nat :=
  List.replicate 80 0 ++ [2, 0, 0, 0] ++ List.replicate 100 0

/-- The mesh the binary STL path produces from `stlEx`. -/
def stlExMesh : StlBinMesh :=
  { numFaces := 2
    normals := [(0, 0, 0), (0, 0, 0), (0, 0, 0), (0, 0, 0), (0, 0, 0), (0, 0, 0)]
    verts := [(0, 0, 0), (0, 0, 0), (0, 0, 0), (0, 0, 0), (0, 0, 0), (0, 0, 0)]
    faces := [[0, 1, 2], [3, 4, 5]] }

set_option maxRecDepth 10000 in
lemma stlEx_parses : stlLoadBinary stlEx = Except.ok stlExMesh := by
  rfl

/-- C3 (witness): the invariants evaluated on the concrete 184-byte binary
buffer and on concrete AC3D index lists. -/
theorem scene_index_invariants_witness :
    (∀ f ∈ stlExMesh.faces, ∀ ix ∈ f, ix < stlExMesh.verts.length) ∧
    (∀ ix ∈ stlBinNodeMeshes 1, ix < 1) ∧
    (∀ e ∈ acValidateEntries 3 [0, 7, 2], e < 3) ∧
    acClampMatIndex 2 5 < 2 :=
  ⟨(scene_index_invariants.1 stlEx stlExMesh stlEx_parses).2,
   scene_index_invariants.2.1 1,
   scene_index_invariants.2.2.1 3 [0, 7, 2] (by decide),
   scene_index_invariants.2.2.2 2 5 (by decide)⟩

/-- C8: a buffer of exactly `84 + 2 * 50` bytes whose 32-bit count at offset
80 is 2 is classified as binary STL (hence not as ASCII STL), and the binary
loader accepts it, producing 2 faces and 6 vertices with each face's single
stored normal duplicated onto its 3 vertices. -/
theorem stl_binary_roundtrip (buf : List Nat)
    (h1 : buf.length = 184) (h2 : u32At buf 80 = 2) :
    isBinarySTL buf = true ∧ isAsciiSTL buf = false ∧
    stlLoadBinary buf = Except.ok
      { numFaces := 2
        normals := [stlWord3At buf 84, stlWord3At buf 84, stlWord3At buf 84,
                    stlWord3At buf 134, stlWord3At buf 134, stlWord3At buf 134]
        verts := [stlWord3At buf 96, stlWord3At buf 108, stlWord3At buf 120,
                  stlWord3At buf 146, stlWord3At buf 158, stlWord3At buf 170]
        faces := [[0, 1, 2], [3, 4, 5]] } := by
  have hbin : isBinarySTL buf = true := by
    unfold isBinarySTL
    rw [h1, h2]
    norm_num
  refine ⟨hbin, ?_, ?_⟩
  · unfold isAsciiSTL
    rw [hbin]
    rfl
  · unfold stlLoadBinary
    rw [h1, h2]
    norm_num
    rw [show List.range 2 = [0, 1] from rfl]
    norm_num [List.flatMap_cons]

set_option maxRecDepth 10000 in
/-- C8 (witness): the round-trip at the concrete buffer `stlEx`. -/
theorem stl_binary_roundtrip_witness :
    isBinarySTL stlEx = true ∧ isAsciiSTL stlEx = false ∧
    stlLoadBinary stlEx = Except.ok
      { numFaces := 2
        normals := [stlWord3At stlEx 84, stlWord3At stlEx 84, stlWord3At stlEx 84,
                    stlWord3At stlEx 134, stlWord3At stlEx 134, stlWord3At stlEx 134]
        verts := [stlWord3At stlEx 96, stlWord3At stlEx 108, stlWord3At stlEx 120,
                  stlWord3At stlEx 146, stlWord3At stlEx 158, stlWord3At stlEx 170]
        faces := [[0, 1, 2], [3, 4, 5]] } :=
  stl_binary_roundtrip stlEx (by decide) (by decide)

/-! ## LWS batch loading of external files

Embedding of the `LoadObject`/`LoadObjectLayer` handling of
`LWSImporter::InternReadFile` (lines 1489-1522) and of the attachment
handling in `LWSImporter::BuildGraph` (lines 1236-1286).  A `LoadObject`
element with an empty resolved path or a path equal to the scene file itself
throws `DeadlyImportError` during the primary element walk, aborting the whole
import; a file the batch loader failed to produce merely logs an error inside
`BuildGraph` and contributes no attachment. -/

/-- The element kinds relevant to batch loading. -/
inductive LwsElem where
  | loadObject (path : String)
  | otherElem
deriving DecidableEq

/-- One step of the element walk: a thrown `DeadlyImportError` propagates, a
`LoadObject` with empty or self-referencing path throws, any other element
leaves the registered request list unchanged or extends it. -/
def lwsRegisterStep (pFile : String) (acc : Except String (List String))
    (e : LwsElem) : Except String (List String) :=
  match acc with
  | Except.error msg => Except.error msg
  | Except.ok paths =>
    match e with
    | LwsElem.loadObject path =>
      if path = "" then Except.error "LWS: Invalid LoadObject: empty path."
      else if path = pFile then Except.error "LWS: Invalid LoadObject: self reference."
      else Except.ok (paths ++ [path])
    | LwsElem.otherElem => Except.ok paths

/-- The element walk of `LWSImporter::InternReadFile` restricted to load
registration: it either registers all referenced paths or throws. -/
def lwsRegisterLoads (pFile : String) (elems : List LwsElem) :
    Except String (List String) :=
  elems.foldl (lwsRegisterStep pFile) (Except.ok [])

/-- The attachment pass of `BuildGraph`: for each object node with a path,
`batch.GetImport` either yields a loaded scene (attach it) or null (log
`Failed to read external file` and continue without an attachment). -/
def lwsBuildAttachments (loaded : String → Option Nat) (paths : List String) :
    List (String × Nat) :=
  paths.foldl
    (fun acc p =>
      match loaded p with
      | none => acc
      | some s => acc ++ [(p, s)])
    []

lemma lwsRegisterLoads_error_absorb (pFile : String) (msg : String) :
    ∀ (elems : List LwsElem),
      elems.foldl (lwsRegisterStep pFile) (Except.error msg) = Except.error msg := by
  intro elems
  induction elems with
  | nil => rfl
  | cons e rest ih =>
    simp only [List.foldl_cons, lwsRegisterStep, ih]

lemma lwsBuildAttachments_acc (loaded : String → Option Nat) :
    ∀ (paths : List String) (acc : List (String × Nat)),
      paths.foldl
        (fun acc p => match loaded p with | none => acc | some s => acc ++ [(p, s)]) acc
        = acc ++ lwsBuildAttachments loaded paths := by
  intro paths
  induction paths with
  | nil => intro acc; simp [lwsBuildAttachments]
  | cons p rest ih =>
    intro acc
    simp only [lwsBuildAttachments, List.foldl_cons]
    cases hp : loaded p with
    | none =>
      rw [ih acc, ih []]
      simp
    | some s =>
      rw [ih (acc ++ [(p, s)]), ih ([] ++ [(p, s)])]
      simp

/-- C6 (amended): a batch-referenced file that the loader could not produce
fails only its own attachment - it contributes nothing while every
successfully loaded request is still attached - but a self-reference (or an
empty resolved path) throws a fatal error while walking the primary file's
elements, so the whole import aborts instead of completing with the remaining
attachments. -/
theorem lws_batch_error_policy :
    (∀ (loaded : String → Option Nat) (paths : List String) (p : String),
      loaded p = none → p ∉ (lwsBuildAttachments loaded paths).map Prod.fst) ∧
    (∀ (loaded : String → Option Nat) (paths : List String) (p : String) (s : Nat),
      p ∈ paths → loaded p = some s → (p, s) ∈ lwsBuildAttachments loaded paths) ∧
    (∀ (pFile : String) (elems : List LwsElem),
      LwsElem.loadObject pFile ∈ elems →
      ∀ l, lwsRegisterLoads pFile elems ≠ Except.ok l) := by
  refine ⟨?_, ?_, ?_⟩
  · intro loaded paths p hnone
    induction paths with
    | nil => simp [lwsBuildAttachments]
    | cons q rest ih =>
      simp only [lwsBuildAttachments, List.foldl_cons]
      cases hq : loaded q with
      | none =>
        rw [lwsBuildAttachments_acc]
        simpa [lwsBuildAttachments] using ih
      | some s =>
        rw [lwsBuildAttachments_acc]
        simp only [List.map_append, List.mem_append]
        rintro (hmem | hmem)
        · have hpq : p = q := by simpa using hmem
          rw [hpq, hq] at hnone
          exact Option.noConfusion hnone
        · exact absurd hmem (by simpa [lwsBuildAttachments] using ih)
  · intro loaded paths p s hmem hsome
    induction paths with
    | nil => cases hmem
    | cons q rest ih =>
      simp only [lwsBuildAttachments, List.foldl_cons]
      rcases List.mem_cons.1 hmem with hpq | hrest
      · subst hpq
        rw [hsome, lwsBuildAttachments_acc]
        simp
      · cases hq : loaded q with
        | none =>
          rw [lwsBuildAttachments_acc]
          simpa [lwsBuildAttachments] using ih hrest
        | some s2 =>
          rw [lwsBuildAttachments_acc]
          simp only [List.mem_append]
          exact Or.inr (by simpa [lwsBuildAttachments] using ih hrest)
  · intro pFile elems hmem l
    unfold lwsRegisterLoads
    suffices hgen : ∀ (es : List LwsElem) (acc : Except String (List String)),
        LwsElem.loadObject pFile ∈ es →
        ∀ l2, es.foldl (lwsRegisterStep pFile) acc ≠ Except.ok l2 by
      exact hgen elems (Except.ok []) hmem l
    intro es
    induction es with
    | nil => intro acc h; cases h
    | cons e rest ih =>
      intro acc h l2
      rcases List.mem_cons.1 h with he | hrest
      · subst he
        simp only [List.foldl_cons]
        cases acc with
        | error msg =>
          rw [show lwsRegisterStep pFile (Except.error msg) (LwsElem.loadObject pFile)
              = Except.error msg from rfl]
          rw [lwsRegisterLoads_error_absorb]
          exact fun hcon => Except.noConfusion hcon
        | ok paths =>
          by_cases hempty : pFile = ""
          · rw [show lwsRegisterStep pFile (Except.ok paths) (LwsElem.loadObject pFile)
                = Except.error "LWS: Invalid LoadObject: empty path." by
                simp [lwsRegisterStep, hempty]]
            rw [lwsRegisterLoads_error_absorb]
            exact fun hcon => Except.noConfusion hcon
          · rw [show lwsRegisterStep pFile (Except.ok paths) (LwsElem.loadObject pFile)
                = Except.error "LWS: Invalid LoadObject: self reference." by
                simp [lwsRegisterStep, hempty]]
            rw [lwsRegisterLoads_error_absorb]
            exact fun hcon => Except.noConfusion hcon
      · simp only [List.foldl_cons]
        exact ih _ hrest l2

/-- C6 (counterexample): a scene file whose element list references one good
external file, then itself, then another good file, aborts the whole import
with the fatal self-reference error - the attachments that could have
succeeded are lost, contradicting the claim that a self-reference is fatal
only for its own attachment. -/
theorem lws_self_reference_counterexample :
    lwsRegisterLoads "scene.lws"
      [LwsElem.loadObject "a.lwo", LwsElem.loadObject "scene.lws",
       LwsElem.loadObject "b.lwo"]
      = Except.error "LWS: Invalid LoadObject: self reference." := by
  rfl

/-- The loader state used in the C6 witness: only `a.lwo` loads. -/
def lwsExLoaded : String → Option Nat :=
  fun p => if p = "a.lwo" then some 1 else none

/-- C6 (witness): concrete instances of the amended policy. -/
theorem lws_batch_error_policy_witness :
    "missing.lwo" ∉ (lwsBuildAttachments lwsExLoaded ["a.lwo", "missing.lwo"]).map Prod.fst ∧
    ("a.lwo", 1) ∈ lwsBuildAttachments lwsExLoaded ["a.lwo", "missing.lwo"] ∧
    (∀ l, lwsRegisterLoads "scene.lws"
      [LwsElem.loadObject "a.lwo", LwsElem.loadObject "scene.lws"] ≠ Except.ok l) :=
  ⟨lws_batch_error_policy.1 lwsExLoaded ["a.lwo", "missing.lwo"] "missing.lwo" (by decide),
   lws_batch_error_policy.2.1 lwsExLoaded ["a.lwo", "missing.lwo"] "a.lwo" 1
     (by decide) (by decide),
   lws_batch_error_policy.2.2 "scene.lws"
     [LwsElem.loadObject "a.lwo", LwsElem.loadObject "scene.lws"] (by decide)⟩

/-! ## Recursion depth bounding

`LWS::Element::Parse` (lines 977-1031) carries an explicit `depth` parameter
and throws once `depth > MAX_DEPTH` (`MAX_DEPTH = 1000`).
`AC3DImporter::LoadObjectSection` (lines 195-246), in contrast, recurses into
`kids`-prefixed child objects with plain native recursion and no depth
parameter at all.  Both are embedded below over token streams; the embeddings
carry a structural `fuel` argument (bounded by the input length, each step
consumes at least one token) that only ensures well-foundedness of the Lean
model and is never the reason a parse stops on the inputs considered. -/

/-- Token stream of an LWS scene file as seen by `LWS::Element::Parse`:
opening brace, closing brace, or a plain data line. -/
inductive LTok where
  | lbrace
  | rbrace
  | lineTok
deriving DecidableEq

/-- `MAX_DEPTH` from the anonymous namespace above `LWS::Element::Parse`. -/
def LWS_MAX_DEPTH : Nat := 1000

/-- `LWS::Element::Parse(buffer, end, depth)`: fails once the depth cap is
exceeded; a `{` recursively parses the sub-element at `depth + 1`; a `}`
returns to the caller; a data line is consumed.  Returns the unconsumed
suffix. -/
def lwsElementParse (fuel depth : Nat) (toks : List LTok) : Except String (List LTok) :=
  if LWS_MAX_DEPTH < depth then
    Except.error "Maximum recursion depth exceeded in LWS Element Parse"
  else
    match fuel, toks with
    | _, [] => Except.ok []
    | _, LTok.rbrace :: rest => Except.ok rest
    | 0, _ :: _ => Except.error "fuel exhausted"
    | f + 1, LTok.lbrace :: rest =>
      match lwsElementParse f (depth + 1) rest with
      | Except.error e => Except.error e
      | Except.ok rest2 => lwsElementParse f depth rest2
    | f + 1, LTok.lineTok :: rest => lwsElementParse f depth rest

/-- A token stream nested `n` braces deep. -/
def lwsNested : Nat → List LTok
  | 0 => []
  | n + 1 => LTok.lbrace :: (lwsNested n ++ [LTok.rbrace])

lemma lwsElementParse_nested_err :
    ∀ (k fuel depth : Nat) (rest : List LTok), k ≤ fuel → depth ≤ LWS_MAX_DEPTH →
      LWS_MAX_DEPTH < depth + k →
      lwsElementParse fuel depth (lwsNested k ++ rest)
        = Except.error "Maximum recursion depth exceeded in LWS Element Parse" := by
  intro k
  induction k with
  | zero =>
    intro fuel depth rest _ hd hover
    omega
  | succ k ih =>
    intro fuel depth rest hkf hd hover
    cases fuel with
    | zero => omega
    | succ f =>
      rw [show lwsNested (k + 1) ++ rest
          = LTok.lbrace :: (lwsNested k ++ ([LTok.rbrace] ++ rest)) by
          simp [lwsNested]]
      unfold lwsElementParse
      rw [if_neg (by omega)]
      show (match lwsElementParse f (depth + 1) (lwsNested k ++ ([LTok.rbrace] ++ rest)) with
            | Except.error e => Except.error e
            | Except.ok rest2 => lwsElementParse f depth rest2)
          = Except.error "Maximum recursion depth exceeded in LWS Element Parse"
      by_cases hd2 : depth + 1 ≤ LWS_MAX_DEPTH
      · rw [ih f (depth + 1) ([LTok.rbrace] ++ rest) (by omega) hd2 (by omega)]
      · have hinner : lwsElementParse f (depth + 1) (lwsNested k ++ ([LTok.rbrace] ++ rest))
            = Except.error "Maximum recursion depth exceeded in LWS Element Parse" := by
          unfold lwsElementParse
          rw [if_pos (by omega)]
        rw [hinner]

/-- Token stream of an AC3D file: `OBJECT` headers and `kids <n>` lines. -/
inductive ATok where
  | objTok
  | kidsTok (n : Nat)
deriving DecidableEq

/-- The object tree built by `AC3DImporter::LoadObjectSection`. -/
inductive AObj where
  | node (children : List AObj)

/-- `AC3DImporter::LoadObjectSection` over the token stream: parse `count`
sibling objects, each recursing into as many children as its `kids <n>` line
declares - with no depth parameter anywhere, exactly as in the source. -/
def acParseMany : Nat → Nat → List ATok → Option (List AObj × List ATok)
  | _, 0, toks => some ([], toks)
  | 0, _ + 1, _ => none
  | f + 1, count + 1, toks =>
    match toks with
    | ATok.objTok :: ATok.kidsTok n :: rest =>
      match acParseMany f n rest with
      | some (kids, rest1) =>
        match acParseMany f count rest1 with
        | some (sibs, rest2) => some (AObj.node kids :: sibs, rest2)
        | none => none
      | none => none
    | _ => none

/-- An AC3D token stream declaring a single chain of objects nested `d`
levels deep. -/
def acNestedIn : Nat → List ATok
  | 0 => []
  | 1 => [ATok.objTok, ATok.kidsTok 0]
  | d + 2 => ATok.objTok :: ATok.kidsTok 1 :: acNestedIn (d + 1)

/-- The object chain of depth `d` that parsing `acNestedIn d` produces. -/
def acChain : Nat → AObj
  | 0 => AObj.node []
  | 1 => AObj.node []
  | d + 2 => AObj.node [acChain (d + 1)]

lemma acParseMany_nested :
    ∀ (d fuel : Nat), d + 1 ≤ fuel →
      acParseMany fuel 1 (acNestedIn (d + 1)) = some ([acChain (d + 1)], []) := by
  intro d
  induction d with
  | zero =>
    intro fuel hf
    cases fuel with
    | zero => omega
    | succ f =>
      rw [show acNestedIn 1 = [ATok.objTok, ATok.kidsTok 0] from rfl]
      simp [acParseMany, acChain]
  | succ d ih =>
    intro fuel hf
    cases fuel with
    | zero => omega
    | succ f =>
      rw [show acNestedIn (d + 2) = ATok.objTok :: ATok.kidsTok 1 :: acNestedIn (d + 1)
          from rfl]
      rw [show acChain (d + 2) = AObj.node [acChain (d + 1)] from rfl]
      simp only [acParseMany, ih f (by omega)]

/-- C7 (amended): the LWS element parser does carry an explicit depth counter
capped at 1000:  an input nested 10,000 braces deep fails closed with its
bounded-recursion error; but the AC3D object-section recursion carries no
depth counter, and the same 10,000-deep nesting parses successfully into a
10,000-long object chain instead of producing any bounded-recursion error. -/
theorem recursion_depth_policy :
    lwsElementParse 20002 0 (lwsNested 10000)
      = Except.error "Maximum recursion depth exceeded in LWS Element Parse" ∧
    acParseMany 10000 1 (acNestedIn 10000) = some ([acChain 10000], []) := by
  constructor
  · have h := lwsElementParse_nested_err 10000 20002 0 [] (by omega)
      (by norm_num [LWS_MAX_DEPTH]) (by norm_num [LWS_MAX_DEPTH])
    simpa using h
  · exact acParseMany_nested 9999 10000 (by omega)

/-- C7 (counterexample): an AC3D object section nested 10,000 levels deep is
accepted by the depth-counter-free recursion of
`AC3DImporter::LoadObjectSection` - no bounded-recursion error is raised, so
not every recursive parse fails closed beyond a fixed maximum depth. -/
theorem ac_deep_nesting_accepted :
    (acParseMany 10000 1 (acNestedIn 10000)).isSome = true := by
  rw [acParseMany_nested 9999 10000 (by omega)]
  rfl

/-! ## SMD vertex-animation section

Embedding of `SMDImporter::ParseVASection` (SMDLoader.cpp lines 763-802) over
a token stream: a `time <n>` line, a vertex data line (its payload abstracted
to one number), or the section's `end` token.  `configFrameID` is the
configured frame id (an `unsigned int`); the comparison
`configFrameID != (unsigned int)iTime` casts the parsed signed time. -/

/-- Tokens of the `vertexanimation` section. -/
inductive VTok where
  | timeTok (t : Int)
  | vert (v : Nat)
  | endTok
deriving DecidableEq

/-- A parsed triangle: the three `avVertices` slots, `none` when the slot was
never written. -/
structure VaTri where
  s0 : Option Nat
  s1 : Option Nat
  s2 : Option Nat
deriving DecidableEq

/-- The default-initialized triangle pushed by `asTriangles.emplace_back()`. -/
def vaEmptyTri : VaTri := ⟨none, none, none⟩

/-- Write slot `i` of a triangle (`ParseVertex` into `avVertices[iCurIndex]`). -/
def vaSetSlot (t : VaTri) (i v : Nat) : VaTri :=
  if i = 0 then { t with s0 := some v }
  else if i = 1 then { t with s1 := some v }
  else { t with s2 := some v }

/-- Write slot `i` of the last triangle of the list (`asTriangles.back()`). -/
def vaSetLast (ts : List VaTri) (i v : Nat) : List VaTri :=
  ts.dropLast ++ [vaSetSlot (ts.getLast?.getD vaEmptyTri) i v]

/-- The C cast `(unsigned int)iTime`. -/
def toUnsigned32 (t : Int) : Nat :=
  (t % (2 ^ 32 : Int)).toNat

/-- The trailing degenerate check of `ParseVASection` (lines 795-798): after
the loop, `if (iCurIndex != 2 && !asTriangles.empty()) asTriangles.pop_back()`. -/
def vaFinalize (iCur : Nat) (ts : List VaTri) : List VaTri :=
  if iCur ≠ 2 ∧ ts ≠ [] then ts.dropLast else ts

/-- The loop of `ParseVASection`: `end` (or exhaustion) stops it; a
`time <n>` token stops it unless `n` equals the configured frame id, in which
case the line is skipped; a vertex line allocates a new triangle when
`iCurIndex == 0`, advances `iCurIndex` (wrapping `3` to `0`), and writes slot
`iCurIndex` of the last triangle. -/
def smdParseVAAux (cfg : Nat) : List VTok → Nat → List VaTri → List VaTri
  | [], iCur, ts => vaFinalize iCur ts
  | VTok.endTok :: _, iCur, ts => vaFinalize iCur ts
  | VTok.timeTok t :: rest, iCur, ts =>
    if cfg ≠ toUnsigned32 t then vaFinalize iCur ts
    else smdParseVAAux cfg rest iCur ts
  | VTok.vert v :: rest, iCur, ts =>
    smdParseVAAux cfg rest (if iCur + 1 = 3 then 0 else iCur + 1)
      (vaSetLast (if iCur = 0 then ts ++ [vaEmptyTri] else ts)
        (if iCur + 1 = 3 then 0 else iCur + 1) v)

/-- `SMDImporter::ParseVASection`: the retained triangles. -/
def smdParseVA (cfg : Nat) (toks : List VTok) : List VaTri :=
  smdParseVAAux cfg toks 0 []

/-- The example section:  groups recorded at times 0, 5 and 10, each holding
one full triangle. -/
def vaExTokens : List VTok :=
  [VTok.timeTok 0, VTok.vert 1, VTok.vert 2, VTok.vert 3,
   VTok.timeTok 5, VTok.vert 4, VTok.vert 5, VTok.vert 6,
   VTok.timeTok 10, VTok.vert 7, VTok.vert 8, VTok.vert 9,
   VTok.endTok]

/-- C9 (counterexample): with configured frame id 5 and groups at times
{0, 5, 10}, the parse breaks at the very first `time 0` line and retains
nothing - not the vertex set recorded at time 5 (which would be the triangle
with payloads 4, 5, 6, stored in slots 1, 2, 0). -/
theorem smd_va_time_filter_counterexample :
    smdParseVA 5 vaExTokens = [] ∧
    smdParseVA 5 vaExTokens ≠ [⟨some 6, some 4, some 5⟩] := by
  constructor
  · decide
  · decide

/-- C9 (amended): the vertex-animation parse stops at the first `time` group
whose id differs from the configured frame id, so it retains only data of
matching groups occurring before that point; in particular, when the very
first group's time already differs from the configured id, the result is
empty - for id 5 among groups at times {0, 5, 10} nothing is retained, not
the time-5 vertex set. -/
theorem smd_va_stops_at_first_mismatch (cfg : Nat) (t : Int) (rest : List VTok)
    (h : cfg ≠ toUnsigned32 t) :
    smdParseVA cfg (VTok.timeTok t :: rest) = [] := by
  unfold smdParseVA smdParseVAAux
  rw [if_pos h]
  rfl

/-- C9 (witness): the amended statement applied to the example section. -/
theorem smd_va_stops_at_first_mismatch_witness :
    smdParseVA 5 (VTok.timeTok 0 ::
      [VTok.vert 1, VTok.vert 2, VTok.vert 3,
       VTok.timeTok 5, VTok.vert 4, VTok.vert 5, VTok.vert 6,
       VTok.timeTok 10, VTok.vert 7, VTok.vert 8, VTok.vert 9,
       VTok.endTok]) = [] :=
  smd_va_stops_at_first_mismatch 5 0
    [VTok.vert 1, VTok.vert 2, VTok.vert 3,
     VTok.timeTok 5, VTok.vert 4, VTok.vert 5, VTok.vert 6,
     VTok.timeTok 10, VTok.vert 7, VTok.vert 8, VTok.vert 9,
     VTok.endTok] (by decide)
